import Mathlib

/-!
# Verification of the transactional state track and resource manager

A shallow embedding of `radix-engine/src/engine/track.rs` and
`radix-engine/src/model/resource_manager.rs`.

* `IndexMap<K, V>` from the `indexmap` crate is modelled as an association
  list `List (K × V)` whose iteration order is the list order.  The crate's
  `insert` replaces the value of an existing key in place (keeping its
  position) and appends new keys at the end; its `remove` is `swap_remove`,
  which swaps the removed entry with the last entry before popping.
  `IndexSet<K>` is modelled as `List K` with the same discipline.
* `HashMap` / `HashSet` are also modelled as association lists / lists;
  their iteration order is never observed by the embedded code.
* `Decimal` (a fixed-point number with 18 decimal subunits backed by `i128`)
  is modelled as `Int` holding the raw subunit count; the per-call mint cap
  keeps real values far away from `i128` overflow.
* Rust panics (`unwrap`/`expect`/`panic!` that terminate the transaction)
  are modelled by an explicit `fatal` result.
-/

namespace RadixTrack

/-! ## Ordered association-list maps (model of `IndexMap` / `HashMap`) -/

/-- First value bound to key `k`, if any. -/
def alookup {K V : Type} [DecidableEq K] (l : List (K × V)) (k : K) : Option V :=
  (l.find? (fun p => p.1 = k)).map Prod.snd

/-- `IndexMap::insert` / `HashMap::insert`: replace in place if the key is
present, otherwise append at the end. -/
def insertKV {K V : Type} [DecidableEq K] (l : List (K × V)) (k : K) (v : V) :
    List (K × V) :=
  if k ∈ l.map Prod.fst then l.map (fun p => if p.1 = k then (k, v) else p)
  else l ++ [(k, v)]

/-- `HashMap::remove`: drop the entry with key `k`. -/
def removeKV {K V : Type} [DecidableEq K] (l : List (K × V)) (k : K) : List (K × V) :=
  l.filter (fun p => ¬ p.1 = k)

/-- Remove index `i` by swapping it with the last element and popping
(the semantics of `indexmap`'s `swap_remove`). -/
def swapRemoveIdx {α : Type} (l : List α) (i : Nat) : List α :=
  match l.getLast? with
  | none => []
  | some last => (l.set i last).dropLast

/-- Index of the entry with key `k`, if any. -/
def findIdxA {K V : Type} [DecidableEq K] (l : List (K × V)) (k : K) : Option Nat :=
  match l with
  | [] => none
  | p :: t => if p.1 = k then some 0 else (findIdxA t k).map (· + 1)

/-- `IndexMap::remove` (an alias of `swap_remove`): returns the removed value
and the perturbed list. -/
def swapRemove {K V : Type} [DecidableEq K] (l : List (K × V)) (k : K) :
    Option V × List (K × V) :=
  match findIdxA l k with
  | none => (none, l)
  | some i => (l[i]?.map Prod.snd, swapRemoveIdx l i)

/-- `HashSet::insert` / `IndexSet::insert`: append if absent. -/
def insertSet {α : Type} [DecidableEq α] (l : List α) (a : α) : List α :=
  if a ∈ l then l else l ++ [a]

/-! ### Lemmas about the map operations -/

theorem alookup_nil {K V : Type} [DecidableEq K] (k : K) :
    alookup ([] : List (K × V)) k = none := rfl

theorem alookup_cons {K V : Type} [DecidableEq K] (p : K × V) (l : List (K × V)) (k : K) :
    alookup (p :: l) k = if p.1 = k then some p.2 else alookup l k := by
  by_cases h : p.1 = k <;> simp [alookup, List.find?_cons, h]

theorem alookup_eq_none_iff {K V : Type} [DecidableEq K] (l : List (K × V)) (k : K) :
    alookup l k = none ↔ k ∉ l.map Prod.fst := by
  induction l with
  | nil => simp [alookup]
  | cons p t ih =>
    rw [alookup_cons]
    by_cases h : p.1 = k
    · rw [if_pos h]
      constructor
      · intro hc; exact absurd hc (by simp)
      · intro hk; exact absurd (by simp [h.symm] : k ∈ (p :: t).map Prod.fst) hk
    · rw [if_neg h, ih]
      constructor
      · intro hk
        simp only [List.map_cons, List.mem_cons, not_or]
        exact ⟨fun hh => h hh.symm, hk⟩
      · intro hk
        simp only [List.map_cons, List.mem_cons, not_or] at hk
        exact hk.2

theorem alookup_append_of_none {K V : Type} [DecidableEq K] (l1 l2 : List (K × V)) (k : K)
    (h : alookup l1 k = none) : alookup (l1 ++ l2) k = alookup l2 k := by
  induction l1 with
  | nil => rfl
  | cons p t ih =>
    rw [alookup_cons] at h
    by_cases hp : p.1 = k
    · simp [hp] at h
    · rw [List.cons_append, alookup_cons, if_neg hp]
      exact ih (by simpa [hp] using h)

theorem alookup_replace_self {K V : Type} [DecidableEq K] (l : List (K × V)) (k : K) (v : V)
    (hmem : k ∈ l.map Prod.fst) :
    alookup (l.map (fun p => if p.1 = k then (k, v) else p)) k = some v := by
  induction l with
  | nil => simp at hmem
  | cons p t ih =>
    by_cases h : p.1 = k
    · simp [alookup_cons, h]
    · simp only [List.map_cons, List.mem_cons] at hmem
      rcases hmem with hmem | hmem
      · exact absurd hmem.symm h
      · simp only [List.map_cons, if_neg h, alookup_cons, if_neg h]
        exact ih hmem

theorem alookup_replace_other {K V : Type} [DecidableEq K] (l : List (K × V)) (k k' : K) (v : V)
    (hne : k' ≠ k) :
    alookup (l.map (fun p => if p.1 = k then (k, v) else p)) k' = alookup l k' := by
  induction l with
  | nil => rfl
  | cons p t ih =>
    by_cases h : p.1 = k
    · have hk : ¬ (k : K) = k' := fun hh => hne hh.symm
      simp only [List.map_cons, if_pos h, alookup_cons, if_neg hk, ih]
      rw [if_neg (h ▸ hk)]
    · simp only [List.map_cons, if_neg h, alookup_cons, ih]

theorem alookup_insertKV_self {K V : Type} [DecidableEq K] (l : List (K × V)) (k : K) (v : V) :
    alookup (insertKV l k v) k = some v := by
  unfold insertKV
  by_cases hmem : k ∈ l.map Prod.fst
  · rw [if_pos hmem]; exact alookup_replace_self l k v hmem
  · rw [if_neg hmem, alookup_append_of_none _ _ _ ((alookup_eq_none_iff l k).2 hmem)]
    simp [alookup_cons]

theorem alookup_insertKV_other {K V : Type} [DecidableEq K] (l : List (K × V))
    (k k' : K) (v : V) (hne : k' ≠ k) :
    alookup (insertKV l k v) k' = alookup l k' := by
  unfold insertKV
  by_cases hmem : k ∈ l.map Prod.fst
  · rw [if_pos hmem]; exact alookup_replace_other l k k' v hne
  · rw [if_neg hmem]
    clear hmem
    induction l with
    | nil => rw [List.nil_append, alookup_cons, if_neg (fun hh => hne hh.symm)]
    | cons p t ih => rw [List.cons_append, alookup_cons, alookup_cons, ih]

theorem findIdxA_eq_none_iff {K V : Type} [DecidableEq K] (l : List (K × V)) (k : K) :
    findIdxA l k = none ↔ k ∉ l.map Prod.fst := by
  induction l with
  | nil => simp [findIdxA]
  | cons p t ih =>
    unfold findIdxA
    by_cases h : p.1 = k
    · simp [h]
    · rw [if_neg h, Option.map_eq_none', ih]
      constructor
      · intro hk
        simp only [List.map_cons, List.mem_cons, not_or]
        exact ⟨fun hh => h hh.symm, hk⟩
      · intro hk
        simp only [List.map_cons, List.mem_cons, not_or] at hk
        exact hk.2

theorem findIdxA_spec {K V : Type} [DecidableEq K] (l : List (K × V)) (k : K) (i : Nat)
    (h : findIdxA l k = some i) :
    ∃ p : K × V, l[i]? = some p ∧ p.1 = k := by
  induction l generalizing i with
  | nil => simp [findIdxA] at h
  | cons p t ih =>
    unfold findIdxA at h
    by_cases hp : p.1 = k
    · rw [if_pos hp] at h
      cases h
      exact ⟨p, by simp, hp⟩
    · rw [if_neg hp] at h
      rcases Option.map_eq_some'.1 h with ⟨j, hj, hji⟩
      rcases ih j hj with ⟨q, hq, hqk⟩
      subst hji
      exact ⟨q, by simpa using hq, hqk⟩

theorem swapRemoveIdx_perm {α : Type} :
    ∀ (l : List α) (i : Nat) (p : α), l[i]? = some p → l.Perm (p :: swapRemoveIdx l i)
  | [], i, p, h => by simp at h
  | a :: t, 0, p, h => by
    have hp : a = p := by simpa using h
    subst hp
    match t with
    | [] => simp [swapRemoveIdx]
    | b :: t' =>
      have hne : (b :: t') ≠ [] := by simp
      have hlast : (a :: b :: t').getLast? = some ((b :: t').getLast hne) := by
        rw [List.getLast?_cons_cons, List.getLast?_eq_getLast _ hne]
      simp only [swapRemoveIdx, hlast, List.set_cons_zero]
      rw [List.dropLast_cons_of_ne_nil hne]
      refine List.Perm.cons a ?_
      conv_lhs => rw [← List.dropLast_append_getLast hne]
      exact List.perm_append_singleton _ _
  | a :: t, j + 1, p, h => by
    have ht : t[j]? = some p := by simpa using h
    match t with
    | [] => simp at ht
    | b :: t' =>
      have hne : (b :: t') ≠ [] := by simp
      have hlast : (a :: b :: t').getLast? = some ((b :: t').getLast hne) := by
        rw [List.getLast?_cons_cons, List.getLast?_eq_getLast _ hne]
      have hlast2 : (b :: t').getLast? = some ((b :: t').getLast hne) :=
        List.getLast?_eq_getLast _ hne
      have hset : ((b :: t').set j ((b :: t').getLast hne)) ≠ [] := by
        intro hc
        have := congrArg List.length hc
        simp at this
      simp only [swapRemoveIdx, hlast, hlast2, List.set_cons_succ]
      rw [List.dropLast_cons_of_ne_nil hset]
      have step := swapRemoveIdx_perm (b :: t') j p ht
      simp only [swapRemoveIdx, hlast2] at step
      exact (List.Perm.cons a step).trans (List.Perm.swap _ _ _)

theorem swapRemove_fst_none {K V : Type} [DecidableEq K] (l : List (K × V)) (k : K)
    (h : (swapRemove l k).1 = none) :
    (swapRemove l k).2 = l ∧ alookup l k = none := by
  match hf : findIdxA l k with
  | none =>
    have h2 : swapRemove l k = (none, l) := by unfold swapRemove; rw [hf]
    rw [h2]
    exact ⟨rfl, (alookup_eq_none_iff l k).2 ((findIdxA_eq_none_iff l k).1 hf)⟩
  | some i =>
    rcases findIdxA_spec l k i hf with ⟨p, hp, _⟩
    have h2 : swapRemove l k = (l[i]?.map Prod.snd, swapRemoveIdx l i) := by
      unfold swapRemove; rw [hf]
    rw [h2, hp] at h
    simp at h

theorem swapRemove_some_perm {K V : Type} [DecidableEq K] (l : List (K × V)) (k : K) (v : V)
    (h : (swapRemove l k).1 = some v) :
    l.Perm ((k, v) :: (swapRemove l k).2) := by
  match hf : findIdxA l k with
  | none =>
    have h2 : swapRemove l k = (none, l) := by unfold swapRemove; rw [hf]
    rw [h2] at h
    simp at h
  | some i =>
    rcases findIdxA_spec l k i hf with ⟨p, hp, hpk⟩
    have h2 : swapRemove l k = (l[i]?.map Prod.snd, swapRemoveIdx l i) := by
      unfold swapRemove; rw [hf]
    rw [h2, hp] at h
    simp only [Option.map_some', Option.some_inj] at h
    have hget : p = (k, v) := by
      cases hg : p with
      | mk a b =>
        rw [hg] at hpk h
        simp only at hpk h
        rw [hpk, h]
    have hperm := swapRemoveIdx_perm l i p hp
    rw [hget] at hperm
    rw [h2]
    exact hperm

/-- With duplicate-free keys, a successful lookup is exactly list membership. -/
theorem alookup_eq_some_iff_mem {K V : Type} [DecidableEq K] (l : List (K × V))
    (hnd : (l.map Prod.fst).Nodup) (k : K) (v : V) :
    alookup l k = some v ↔ (k, v) ∈ l := by
  induction l with
  | nil => simp [alookup]
  | cons p t ih =>
    rw [List.map_cons, List.nodup_cons] at hnd
    rw [alookup_cons]
    by_cases h : p.1 = k
    · rw [if_pos h]
      constructor
      · intro hv
        rw [Option.some_inj] at hv
        have hpk : p = (k, v) := by
          cases p with
          | mk a b =>
            simp only at h hv
            rw [h, hv]
        rw [← hpk]
        exact List.mem_cons_self p t
      · intro hv
        rcases List.mem_cons.1 hv with hv | hv
        · rw [← hv]
        · have hmem : k ∈ t.map Prod.fst := List.mem_map.2 ⟨(k, v), hv, rfl⟩
          rw [← h] at hmem
          exact absurd hmem hnd.1
    · rw [if_neg h, ih hnd.2]
      constructor
      · exact fun hv => List.mem_cons.2 (Or.inr hv)
      · intro hv
        rcases List.mem_cons.1 hv with hv | hv
        · exact absurd (congrArg Prod.fst hv.symm) h
        · exact hv

theorem alookup_swapRemove_self {K V : Type} [DecidableEq K] (l : List (K × V))
    (hnd : (l.map Prod.fst).Nodup) (k : K) :
    alookup (swapRemove l k).2 k = none := by
  match hf : (swapRemove l k).1 with
  | none => exact (swapRemove_fst_none l k hf).1.symm ▸ (swapRemove_fst_none l k hf).2
  | some v =>
    have hperm := swapRemove_some_perm l k v hf
    have hkeys : (l.map Prod.fst).Perm (k :: (swapRemove l k).2.map Prod.fst) := by
      simpa using hperm.map Prod.fst
    have : (k :: (swapRemove l k).2.map Prod.fst).Nodup := hkeys.nodup_iff.1 hnd
    rw [List.nodup_cons] at this
    exact (alookup_eq_none_iff _ k).2 this.1

theorem alookup_swapRemove_other {K V : Type} [DecidableEq K] (l : List (K × V))
    (hnd : (l.map Prod.fst).Nodup) (k k' : K) (hne : k' ≠ k) :
    alookup (swapRemove l k).2 k' = alookup l k' := by
  match hf : (swapRemove l k).1 with
  | none => rw [(swapRemove_fst_none l k hf).1]
  | some v =>
    have hperm := swapRemove_some_perm l k v hf
    have hkeys : (l.map Prod.fst).Perm (k :: (swapRemove l k).2.map Prod.fst) := by
      simpa using hperm.map Prod.fst
    have hnd2 : (k :: (swapRemove l k).2.map Prod.fst).Nodup := hkeys.nodup_iff.1 hnd
    rw [List.nodup_cons] at hnd2
    match hl : alookup l k' with
    | some w =>
      have hmem : (k', w) ∈ l := (alookup_eq_some_iff_mem l hnd k' w).1 hl
      have : (k', w) ∈ (k, v) :: (swapRemove l k).2 := hperm.mem_iff.1 hmem
      rcases List.mem_cons.1 this with hv | hv
      · exact absurd (congrArg Prod.fst hv) hne
      · exact (alookup_eq_some_iff_mem _ hnd2.2 k' w).2 hv
    | none =>
      have hnot : k' ∉ l.map Prod.fst := (alookup_eq_none_iff l k').1 hl
      have : k' ∉ k :: (swapRemove l k).2.map Prod.fst := fun hc => hnot (hkeys.mem_iff.2 hc)
      rw [List.mem_cons, not_or] at this
      exact (alookup_eq_none_iff _ k').2 this.2

/-! ## Basic engine types

`PackageAddress`, `ComponentAddress`, `ResourceAddress`, `VaultId`,
`KeyValueStoreId` and `NonFungibleId` are opaque identifier types from the
`scrypto` crate (not part of the excerpt); they are modelled as `Nat`.
Byte strings are modelled as `List Nat`. -/

abbrev Bytes := List Nat

/-- Modelled from the spec: `scrypto_encode` of a single identifier
(package / component / resource address, vault id, kv-store id) is a
deterministic, injective, fixed-width byte encoding with a per-type
discriminator byte.  Missing from the excerpt (lives in the `sbor` crate). -/
def encodeId (tag : Nat) (n : Nat) : Bytes := [tag, n]

/-- `(TxHash, u32 index)` locating a concrete prior write in the store. -/
structure PhysicalSubstateId where
  hash : Nat
  index : Nat
  deriving DecidableEq, Repr

/-- `SubstateParentId = Exists(PhysicalSubstateId) | New(index)`. -/
inductive SubstateParentId where
  | Exists (id : PhysicalSubstateId)
  | New (index : Nat)
  deriving DecidableEq, Repr

/-- `VirtualSubstateId(SubstateParentId, key-bytes)`. -/
structure VirtualSubstateId where
  parent : SubstateParentId
  key : Bytes
  deriving DecidableEq, Repr

/-- The `Address` sum type of `track.rs`. -/
inductive Address where
  | Resource (resource_address : Nat)
  | GlobalComponent (component_address : Nat)
  | Package (package_address : Nat)
  | NonFungibleSet (resource_address : Nat)
  | KeyValueStore (component_address : Nat) (kv_store_id : Nat)
  | Vault (component_address : Nat) (vault_id : Nat)
  | LocalComponent (component_address : Nat) (child_id : Nat)
  deriving DecidableEq, Repr

/-- `Address::encode`: concatenate the canonical encodings of the parts;
`NonFungibleSet(r)` is `encode(r) ++ [0x00]` (the
`resource_to_non_fungible_space` macro). -/
def Address.encode : Address → Bytes
  | .Resource r => encodeId 2 r
  | .GlobalComponent c => encodeId 0 c
  | .Package p => encodeId 1 p
  | .Vault c v => encodeId 0 c ++ encodeId 4 v
  | .LocalComponent c child => encodeId 0 c ++ encodeId 0 child
  | .NonFungibleSet r => encodeId 2 r ++ [0]
  | .KeyValueStore c k => encodeId 0 c ++ encodeId 5 k

/-! ## Substate values

`Component`, `ValidatedPackage`, `Vault` and `NonFungible` live in modules
outside the excerpt; they are modelled from the spec with just the structure
the embedded code touches (`Component::set_state`, `NonFungible::new` /
`set_mutable_data`). -/

/-- Modelled from the spec: a component substate; the track only ever calls
its `set_state` mutator. -/
structure Component where
  state : Bytes
  deriving DecidableEq, Repr

/-- `Component::set_state`. -/
def Component.set_state (_c : Component) (new_state : Bytes) : Component :=
  ⟨new_state⟩

/-- Modelled from the spec: a validated package (wasm code blob). -/
structure ValidatedPackage where
  code : Bytes
  deriving DecidableEq, Repr

/-- Modelled from the spec: a vault substate (a resource container holder,
opaque to the track). -/
structure Vault where
  contents : Nat
  deriving DecidableEq, Repr

/-- Modelled from the spec: a non-fungible unit with immutable and mutable
data halves. -/
structure NonFungible where
  immutable_data : Bytes
  mutable_data : Bytes
  deriving DecidableEq, Repr

/-- `NonFungible::set_mutable_data`. -/
def NonFungible.set_mutable_data (nf : NonFungible) (data : Bytes) : NonFungible :=
  { nf with mutable_data := data }

/-- Log levels of `(Level, String)` log entries. -/
inductive Level where
  | error | warn | info | debug | trace
  deriving DecidableEq, Repr

/-! ## Resource manager (`model/resource_manager.rs`) -/

/-- `Decimal` is a fixed-point number with 18 decimal subunits backed by an
`i128`; it is modelled as an unbounded `Int` holding the raw subunit count
(`amount.0` in the source).  The per-call mint cap keeps realistic values
far below `i128` overflow. -/
abbrev Decimal := Int

/-- One whole unit: `Decimal::from(1)` has raw value `10^18`. -/
def decimalOne : Decimal := (10 : Int) ^ 18

/-- `Decimal::is_negative`. -/
def Decimal.is_negative (d : Decimal) : Bool := d < 0

/-- `ResourceType`: fungible with a divisibility in `0..=18`, or
non-fungible. -/
inductive ResourceType where
  | Fungible (divisibility : Nat)
  | NonFungible
  deriving DecidableEq, Repr

/-- `ResourceType::divisibility` (non-fungibles report 0). -/
def ResourceType.divisibility : ResourceType → Nat
  | .Fungible d => d
  | .NonFungible => 0

/-- The six `ResourceMethodAuthKey`s. -/
inductive ResourceMethodAuthKey where
  | Mint | Burn | Withdraw | Deposit | UpdateMetadata | UpdateNonFungibleData
  deriving DecidableEq, Repr

/-- Modelled from the spec: a soft `AccessRule` authorization expression
(from the `scrypto` crate, outside the excerpt).  Only its identity matters
to the embedded code, which passes it through `convert`. -/
inductive AccessRule where
  | AllowAll
  | DenyAll
  | Protected (rule : Nat)
  deriving DecidableEq, Repr

/-- `Mutability`: `LOCKED` or `MUTABLE(rule)`. -/
inductive Mutability where
  | LOCKED
  | MUTABLE (method_auth : AccessRule)
  deriving DecidableEq, Repr

/-- Modelled from the spec: a hard `MethodAuthorization` expression
(from `model/method_authorization.rs`, outside the excerpt). -/
inductive MethodAuthorization where
  | AllowAll
  | DenyAll
  | Unsupported
  | Protected (rule : Nat)
  deriving DecidableEq, Repr

/-- Modelled from the spec: `convert` turns a soft authorization rule into
the corresponding hard rule (the `convert_auth!` macro; the real `convert`
lives outside the excerpt). -/
def convert : AccessRule → MethodAuthorization
  | .AllowAll => .AllowAll
  | .DenyAll => .DenyAll
  | .Protected r => .Protected r

/-- `MethodAccessRuleMethod`: the two transitions of the access-rule state
machine. -/
inductive MethodAccessRuleMethod where
  | Lock
  | Update (rule : AccessRule)
  deriving DecidableEq, Repr

/-- `MethodAccessRule`: the `(auth, update_auth)` pair. -/
structure MethodAccessRule where
  auth : MethodAuthorization
  update_auth : MethodAuthorization
  deriving DecidableEq, Repr

namespace MethodAccessRule

/-- `MethodAccessRule::new`. -/
def new (entry : AccessRule × Mutability) : MethodAccessRule :=
  { auth := convert entry.1
    update_auth :=
      match entry.2 with
      | .LOCKED => .DenyAll
      | .MUTABLE method_auth => convert method_auth }

/-- `MethodAccessRule::get_method_auth`. -/
def get_method_auth (r : MethodAccessRule) : MethodAuthorization := r.auth

/-- `MethodAccessRule::get_update_auth`: both transitions are guarded by
`update_auth`. -/
def get_update_auth (r : MethodAccessRule) (method : MethodAccessRuleMethod) :
    MethodAuthorization :=
  match method with
  | .Lock | .Update _ => r.update_auth

/-- `MethodAccessRule::update`: replace `auth`, leave `update_auth`. -/
def update (r : MethodAccessRule) (method_auth : AccessRule) : MethodAccessRule :=
  { r with auth := convert method_auth }

/-- `MethodAccessRule::lock`: set `update_auth := DenyAll`. -/
def lock (r : MethodAccessRule) : MethodAccessRule :=
  { r with update_auth := .DenyAll }

/-- `MethodAccessRule::main`: dispatch a transition (always returns `Ok`). -/
def main (r : MethodAccessRule) (method : MethodAccessRuleMethod) : MethodAccessRule :=
  match method with
  | .Lock => r.lock
  | .Update method_auth => r.update method_auth

end MethodAccessRule

/-- `ResourceMethodRule`: `Public` or `Protected(auth key)`. -/
inductive ResourceMethodRule where
  | Public
  | Protected (key : ResourceMethodAuthKey)
  deriving DecidableEq, Repr

/-- `NonFungibleAddress`: a resource address paired with a non-fungible id. -/
structure NonFungibleAddress where
  resource_address : Nat
  non_fungible_id : Nat
  deriving DecidableEq, Repr

/-- `ResourceManagerError`. -/
inductive ResourceManagerError where
  | InvalidDivisibility
  | InvalidAmount (amount : Decimal) (divisibility : Nat)
  | InvalidResourceFlags (flags : Nat)
  | InvalidMintPermission
  | ResourceTypeDoesNotMatch
  | MaxMintAmountExceeded
  | InvalidNonFungibleData
  | NonFungibleAlreadyExists (addr : NonFungibleAddress)
  | NonFungibleNotFound (addr : NonFungibleAddress)
  | InvalidRequestData
  | MethodNotFound (name : String)
  | CouldNotCreateBucket
  | CouldNotCreateVault
  | InvalidMethod
  deriving DecidableEq, Repr

/-- `ResourceManager`: authorization tables plus supply arithmetic.
`HashMap` fields are association lists. -/
structure ResourceManager where
  resource_type : ResourceType
  metadata : List (String × String)
  method_table : List (String × ResourceMethodRule)
  vault_method_table : List (String × ResourceMethodRule)
  authorization : List (ResourceMethodAuthKey × MethodAccessRule)
  total_supply : Decimal
  deriving DecidableEq, Repr

/-- Modelled from the spec: a fungible or non-fungible `ResourceContainer`
(from `model/resource_container.rs`, outside the excerpt), holding what
`new_fungible` / `new_non_fungible` are given.  The non-fungible id set is a
`BTreeSet` modelled as a sorted list. -/
inductive ResourceContainer where
  | Fungible (resource_address : Nat) (divisibility : Nat) (liquid_amount : Decimal)
  | NonFungible (resource_address : Nat) (liquid_ids : List Nat)
  deriving DecidableEq, Repr

/-- `BTreeSet::insert` on the sorted-list model. -/
def btreeInsert (l : List Nat) (n : Nat) : List Nat :=
  match l with
  | [] => [n]
  | x :: t => if n < x then n :: x :: t else if n = x then x :: t else x :: btreeInsert t n

/-- Modelled from the spec: a decoded sbor value — raw bytes plus the ids of
any buckets, proofs, kv-stores and vaults the value references (what
`ScryptoValue::from_slice` computes; the decoder itself lives in the
`scrypto` crate, outside the excerpt). -/
structure ScryptoValue where
  raw : Bytes
  bucket_ids : List Nat
  proof_ids : List Nat
  kv_store_ids : List Nat
  vault_ids : List Nat
  deriving DecidableEq, Repr

/-- Modelled from the spec: `ScryptoValue::from_slice`, abstracted as a
parameter (an arbitrary deterministic canonical decoder; `none` is a decode
failure). -/
abbrev SborDecoder := Bytes → Option ScryptoValue

/-- Modelled from the spec: the slice of the system API that
`mint_non_fungibles` uses — `get_non_fungible` / `set_non_fungible`,
dispatching into the track's keyed non-fungible substates. -/
structure NFSystem where
  entries : List (NonFungibleAddress × Option NonFungible)
  deriving DecidableEq, Repr

/-- `SystemApi::get_non_fungible`. -/
def NFSystem.get_non_fungible (s : NFSystem) (addr : NonFungibleAddress) :
    Option NonFungible :=
  match alookup s.entries addr with
  | some o => o
  | none => none

/-- `SystemApi::set_non_fungible`. -/
def NFSystem.set_non_fungible (s : NFSystem) (addr : NonFungibleAddress)
    (nf : Option NonFungible) : NFSystem :=
  ⟨insertKV s.entries addr nf⟩

namespace ResourceManager

/-- `ResourceManager::new` (the source always returns `Ok`; the `Result`
wrapper is dropped).  Static tables built in source insertion order;
defaults for the six auth keys overridden by the `auth` argument. -/
def new (resource_type : ResourceType) (metadata : List (String × String))
    (auth : List (ResourceMethodAuthKey × (AccessRule × Mutability))) :
    ResourceManager :=
  let vault_method_table :=
    [("take", ResourceMethodRule.Protected .Withdraw),
     ("put", ResourceMethodRule.Protected .Deposit),
     ("amount", ResourceMethodRule.Public),
     ("resource_address", ResourceMethodRule.Public),
     ("non_fungible_ids", ResourceMethodRule.Public),
     ("create_proof", ResourceMethodRule.Public),
     ("create_proof_by_amount", ResourceMethodRule.Public),
     ("create_proof_by_ids", ResourceMethodRule.Public),
     ("take_non_fungibles", ResourceMethodRule.Protected .Withdraw)].foldl
      (fun m p => insertKV m p.1 p.2) []
  let method_table :=
    [("mint", ResourceMethodRule.Protected .Mint),
     ("burn", ResourceMethodRule.Protected .Burn),
     ("update_metadata", ResourceMethodRule.Protected .UpdateMetadata),
     ("create_bucket", ResourceMethodRule.Public),
     ("metadata", ResourceMethodRule.Public),
     ("resource_type", ResourceMethodRule.Public),
     ("total_supply", ResourceMethodRule.Public),
     ("create_vault", ResourceMethodRule.Public),
     ("update_non_fungible_data", ResourceMethodRule.Protected .UpdateNonFungibleData),
     ("non_fungible_exists", ResourceMethodRule.Public),
     ("non_fungible_data", ResourceMethodRule.Public)].foldl
      (fun m p => insertKV m p.1 p.2) []
  let authorization :=
    [(ResourceMethodAuthKey.Mint, (AccessRule.DenyAll, Mutability.LOCKED)),
     (ResourceMethodAuthKey.Burn, (AccessRule.DenyAll, Mutability.LOCKED)),
     (ResourceMethodAuthKey.Withdraw, (AccessRule.AllowAll, Mutability.LOCKED)),
     (ResourceMethodAuthKey.Deposit, (AccessRule.AllowAll, Mutability.LOCKED)),
     (ResourceMethodAuthKey.UpdateMetadata, (AccessRule.DenyAll, Mutability.LOCKED)),
     (ResourceMethodAuthKey.UpdateNonFungibleData,
       (AccessRule.DenyAll, Mutability.LOCKED))].foldl
      (fun m p => insertKV m p.1 (MethodAccessRule.new ((alookup auth p.1).getD p.2))) []
  { resource_type := resource_type
    metadata := metadata
    method_table := method_table
    vault_method_table := vault_method_table
    authorization := authorization
    total_supply := 0 }

/-- The per-call mint cap, `Decimal::from(100_000_000_000i128)`. -/
def mintCap : Decimal := 100000000000 * decimalOne

/-- `ResourceManager::check_amount`: reject negative amounts and amounts
whose raw value is not a multiple of `10^(18 - divisibility)`.
(`amount.0 % 10i128.pow(..)` is the truncating remainder, `Int.tmod`.) -/
def check_amount (rm : ResourceManager) (amount : Decimal) :
    Except ResourceManagerError Unit :=
  let divisibility := rm.resource_type.divisibility
  if amount.is_negative || !(Int.tmod amount ((10 : Int) ^ (18 - divisibility)) == 0)
  then .error (.InvalidAmount amount divisibility)
  else .ok ()

/-- `ResourceManager::mint_fungible`.  The pair carries the `&mut self`
state after the call (unchanged on error). -/
def mint_fungible (rm : ResourceManager) (amount : Decimal) (self_address : Nat) :
    Except ResourceManagerError ResourceContainer × ResourceManager :=
  match rm.resource_type with
  | .Fungible divisibility =>
    match rm.check_amount amount with
    | .error e => (.error e, rm)
    | .ok _ =>
      if amount > mintCap then (.error .MaxMintAmountExceeded, rm)
      else (.ok (.Fungible self_address divisibility amount),
            { rm with total_supply := rm.total_supply + amount })
  | .NonFungible => (.error .ResourceTypeDoesNotMatch, rm)

/-- `ResourceManager::process_non_fungible_data`: decode and reject any blob
referencing buckets, proofs, kv-stores or vaults. -/
def process_non_fungible_data (decoder : SborDecoder) (data : Bytes) :
    Except ResourceManagerError ScryptoValue :=
  match decoder data with
  | none => .error .InvalidNonFungibleData
  | some validated =>
    if !validated.bucket_ids.isEmpty then .error .InvalidNonFungibleData
    else if !validated.proof_ids.isEmpty then .error .InvalidNonFungibleData
    else if !validated.kv_store_ids.isEmpty then .error .InvalidNonFungibleData
    else if !validated.vault_ids.isEmpty then .error .InvalidNonFungibleData
    else .ok validated

/-- The per-entry loop of `mint_non_fungibles`: duplicate check, data
validation, then `set_non_fungible`; system-API writes made before a
failing entry persist. -/
def mintNFLoop (decoder : SborDecoder) (self_address : Nat) :
    List (Nat × (Bytes × Bytes)) → NFSystem → List Nat →
    Except ResourceManagerError (List Nat) × NFSystem
  | [], sys, ids => (.ok ids, sys)
  | (id, data) :: rest, sys, ids =>
    let non_fungible_address : NonFungibleAddress := ⟨self_address, id⟩
    if (sys.get_non_fungible non_fungible_address).isSome then
      (.error (.NonFungibleAlreadyExists non_fungible_address), sys)
    else
      match process_non_fungible_data decoder data.1 with
      | .error e => (.error e, sys)
      | .ok immutable_data =>
        match process_non_fungible_data decoder data.2 with
        | .error e => (.error e, sys)
        | .ok mutable_data =>
          let sys' := sys.set_non_fungible non_fungible_address
            (some ⟨immutable_data.raw, mutable_data.raw⟩)
          mintNFLoop decoder self_address rest sys' (btreeInsert ids id)

/-- `ResourceManager::mint_non_fungibles`.  `entries` is the `HashMap` of
new id / data pairs in some iteration order.  Note the source increments
`total_supply` *before* the per-entry loop; the triple carries the
`&mut self` state and the system-API state after the call. -/
def mint_non_fungibles (rm : ResourceManager) (entries : List (Nat × (Bytes × Bytes)))
    (self_address : Nat) (sys : NFSystem) (decoder : SborDecoder) :
    Except ResourceManagerError ResourceContainer × ResourceManager × NFSystem :=
  match rm.resource_type with
  | .Fungible _ => (.error .ResourceTypeDoesNotMatch, rm, sys)
  | .NonFungible =>
    let amount : Decimal := (entries.length : Int) * decimalOne
    match rm.check_amount amount with
    | .error e => (.error e, rm, sys)
    | .ok _ =>
      if amount > mintCap then (.error .MaxMintAmountExceeded, rm, sys)
      else
        let rm2 := { rm with total_supply := rm.total_supply + amount }
        match mintNFLoop decoder self_address entries sys [] with
        | (.error e, sys2) => (.error e, rm2, sys2)
        | (.ok ids, sys2) => (.ok (.NonFungible self_address ids), rm2, sys2)

/-- `ResourceManager::burn`: `total_supply -= amount`, no negativity check. -/
def burn (rm : ResourceManager) (amount : Decimal) : ResourceManager :=
  { rm with total_supply := rm.total_supply - amount }

/-- `ResourceManager::update_metadata` (always returns `Ok`). -/
def update_metadata (rm : ResourceManager) (new_metadata : List (String × String)) :
    ResourceManager :=
  { rm with metadata := new_metadata }

/-- The `update_auth` dispatch arm of `ResourceManager::main`:
`authorization.get_mut(key).unwrap().main(Update(rule))`.  A missing key is
an `unwrap` panic; the six keys are always present after `new`. -/
def update_auth (rm : ResourceManager) (key : ResourceMethodAuthKey)
    (rule : AccessRule) : Option ResourceManager :=
  match alookup rm.authorization key with
  | none => none
  | some entry =>
    some { rm with authorization :=
            insertKV rm.authorization key (entry.main (.Update rule)) }

/-- The `lock_auth` dispatch arm of `ResourceManager::main`. -/
def lock_auth (rm : ResourceManager) (key : ResourceMethodAuthKey) :
    Option ResourceManager :=
  match alookup rm.authorization key with
  | none => none
  | some entry =>
    some { rm with authorization := insertKV rm.authorization key (entry.main .Lock) }

end ResourceManager

/-! ## The track (`engine/track.rs`) -/

/-- The `SubstateValue` sum type. -/
inductive SubstateValue where
  | Resource (resource_manager : ResourceManager)
  | Component (component : Component)
  | Package (package : ValidatedPackage)
  | Vault (vault : Vault)
  | NonFungible (non_fungible : Option NonFungible)
  | KeyValueStoreEntry (entry : Option Bytes)
  deriving DecidableEq, Repr

/-- Modelled from the spec: deterministic byte encoding of a `Decimal`. -/
def encodeDecimal (d : Decimal) : Bytes :=
  if d < 0 then [1, d.natAbs] else [0, d.natAbs]

/-- Modelled from the spec: deterministic byte encoding of a `ResourceType`. -/
def encodeResourceType : ResourceType → Bytes
  | .Fungible d => [0, d]
  | .NonFungible => [1]

/-- Modelled from the spec: `SubstateValue::encode`, the canonical sbor
encoding of a substate value (the sbor serializer lives outside the
excerpt; the claims only need determinism). -/
def SubstateValue.encode : SubstateValue → Bytes
  | .Resource rm => 0 :: (encodeResourceType rm.resource_type ++ encodeDecimal rm.total_supply)
  | .Component c => 1 :: c.state
  | .Package p => 2 :: p.code
  | .Vault v => [3, v.contents]
  | .NonFungible none => [4, 0]
  | .NonFungible (some nf) => 4 :: 1 :: (nf.immutable_data ++ nf.mutable_data)
  | .KeyValueStoreEntry none => [5, 0]
  | .KeyValueStoreEntry (some b) => 5 :: 1 :: b

/-- `TrackError`. -/
inductive TrackError where
  | Reentrancy
  | NotFound
  deriving DecidableEq, Repr

/-- Result of a track operation: success, a returned `TrackError`, or a Rust
panic (`unwrap` / `expect` / `panic!`), which terminates the transaction. -/
inductive TRes (α : Type) where
  | ok (value : α)
  | err (e : TrackError)
  | fatal
  deriving DecidableEq, Repr

/-- A stored substate: its (decoded) value and its physical id.  The store
keeps sbor bytes; since the encoding is a deterministic bijection the model
stores the decoded value, and a typed `scrypto_decode::<T>(..).unwrap()`
panics exactly when the stored value is not of the expected variant. -/
structure Substate where
  value : SubstateValue
  phys_id : PhysicalSubstateId
  deriving DecidableEq, Repr

/-- The read-only `ReadableSubstateStore` interface. -/
structure SubstateStore where
  substates : List (Bytes × Substate)
  spaces : List (Bytes × PhysicalSubstateId)
  epoch : Nat
  deriving DecidableEq, Repr

/-- `SubstateStore::get_substate`. -/
def SubstateStore.get_substate (s : SubstateStore) (address : Bytes) : Option Substate :=
  alookup s.substates address

/-- `SubstateStore::get_space`. -/
def SubstateStore.get_space (s : SubstateStore) (address : Bytes) :
    Option PhysicalSubstateId :=
  alookup s.spaces address

/-- The `Track` state.  `IndexMap` / `IndexSet` fields are ordered lists;
`HashMap` / `HashSet` fields are lists whose order is never observed.  The
`id_allocator` field of the source is omitted: `IdAllocator` lives in the
`transaction` crate, outside the excerpt, and no embedded operation uses it. -/
structure Track where
  substate_store : SubstateStore
  transaction_hash : Nat
  logs : List (Level × String)
  new_addresses : List Address
  borrowed_substates : List Address
  borrowed_substates_2 : List (Address × SubstateValue)
  read_substates : List (Address × SubstateValue)
  downed_substates : List PhysicalSubstateId
  down_virtual_substates : List VirtualSubstateId
  up_substates : List (Bytes × SubstateValue)
  up_virtual_substate_space : List Bytes
  deriving DecidableEq, Repr

namespace Track

/-- `Track::new`. -/
def new (substate_store : SubstateStore) (transaction_hash : Nat) : Track :=
  { substate_store := substate_store
    transaction_hash := transaction_hash
    logs := []
    new_addresses := []
    borrowed_substates := []
    borrowed_substates_2 := []
    read_substates := []
    downed_substates := []
    down_virtual_substates := []
    up_substates := []
    up_virtual_substate_space := [] }

/-- The `IndexMap` key-uniqueness invariant of `up_substates` (maintained by
the Rust type itself). -/
def WF (t : Track) : Prop := (t.up_substates.map Prod.fst).Nodup

instance (t : Track) : Decidable t.WF := by unfold WF; infer_instance

/-- `Track::add_log`. -/
def add_log (t : Track) (level : Level) (message : String) : Track :=
  { t with logs := t.logs ++ [(level, message)] }

/-- The per-tag `scrypto_decode::<T>(..).unwrap()` dispatch of
`borrow_global_value` (`none` is the decode / unsupported-tag panic);
handles `Package`, global and local components, `Resource` and `Vault`. -/
def decodeRead (addr : Address) (v : SubstateValue) : Option SubstateValue :=
  match addr, v with
  | .Package _, .Package p => some (.Package p)
  | .GlobalComponent _, .Component c => some (.Component c)
  | .LocalComponent _ _, .Component c => some (.Component c)
  | .Resource _, .Resource rm => some (.Resource rm)
  | .Vault _ _, .Vault vlt => some (.Vault vlt)
  | _, _ => none

/-- `Track::borrow_global_value`: serve from `up_substates`, else fault the
store into the `read_substates` cache (no write recorded), else `NotFound`. -/
def borrow_global_value (t : Track) (addr : Address) : TRes (SubstateValue × Track) :=
  match alookup t.up_substates addr.encode with
  | some v => .ok (v, t)
  | none =>
    match t.substate_store.get_substate addr.encode with
    | some substate =>
      match decodeRead addr substate.value with
      | some v => .ok (v, { t with read_substates := insertKV t.read_substates addr v })
      | none => .fatal
    | none => .err .NotFound

/-- The per-tag decode dispatch of `take_lock` (no `Package` arm: packages
cannot be locked and are an `Attempting to borrow unsupported value` panic). -/
def decodeLock (addr : Address) (v : SubstateValue) : Option SubstateValue :=
  match addr, v with
  | .GlobalComponent _, .Component c => some (.Component c)
  | .LocalComponent _ _, .Component c => some (.Component c)
  | .Resource _, .Resource rm => some (.Resource rm)
  | .Vault _ _, .Vault vlt => some (.Vault vlt)
  | _, _ => none

/-- `Track::take_lock`: move from `up_substates` to `borrowed_substates_2`;
an address already in `borrowed_substates_2` is `Reentrancy`; otherwise
fault from the store, appending the physical id to `downed_substates`. -/
def take_lock (t : Track) (addr : Address) : TRes Track :=
  let removed := swapRemove t.up_substates addr.encode
  match removed.1 with
  | some value =>
    .ok { t with up_substates := removed.2
                 borrowed_substates_2 := insertKV t.borrowed_substates_2 addr value }
  | none =>
    if (alookup t.borrowed_substates_2 addr).isSome then .err .Reentrancy
    else
      match t.substate_store.get_substate addr.encode with
      | some substate =>
        match decodeLock addr substate.value with
        | some v =>
          .ok { t with
            downed_substates := t.downed_substates ++ [substate.phys_id]
            borrowed_substates_2 := insertKV t.borrowed_substates_2 addr v }
        | none => .fatal
      | none => .err .NotFound

/-- `Track::read_value`: a shared view of the currently borrowed value
(`unwrap` panics when not borrowed). -/
def read_value (t : Track) (addr : Address) : TRes SubstateValue :=
  match alookup t.borrowed_substates_2 addr with
  | some v => .ok v
  | none => .fatal

/-- `Track::write_value`: replace the borrowed value; `NotFound` when the
address is not in `borrowed_substates_2`. -/
def write_value (t : Track) (addr : Address) (value : SubstateValue) : TRes Track :=
  if (alookup t.borrowed_substates_2 addr).isSome then
    .ok { t with borrowed_substates_2 := insertKV t.borrowed_substates_2 addr value }
  else .err .NotFound

/-- `Track::release_lock`: move the borrowed value back into `up_substates`
(`expect` panics when not borrowed). -/
def release_lock (t : Track) (addr : Address) : TRes Track :=
  match alookup t.borrowed_substates_2 addr with
  | none => .fatal
  | some value =>
    .ok { t with borrowed_substates_2 := removeKV t.borrowed_substates_2 addr
                 up_substates := insertKV t.up_substates addr.encode value }

/-- The per-tag decode dispatch of `borrow_global_mut_value` (handles
`GlobalComponent` but *not* `LocalComponent`, plus `Resource`, `Vault` and
`Package`). -/
def decodeMut (addr : Address) (v : SubstateValue) : Option SubstateValue :=
  match addr, v with
  | .GlobalComponent _, .Component c => some (.Component c)
  | .Resource _, .Resource rm => some (.Resource rm)
  | .Vault _ _, .Vault vlt => some (.Vault vlt)
  | .Package _, .Package p => some (.Package p)
  | _, _ => none

/-- `Track::borrow_global_mut_value`: move the value out to the caller,
recording the address in the *separate* `borrowed_substates` set. -/
def borrow_global_mut_value (t : Track) (addr : Address) :
    TRes (SubstateValue × Track) :=
  let removed := swapRemove t.up_substates addr.encode
  match removed.1 with
  | some value =>
    .ok (value, { t with up_substates := removed.2
                         borrowed_substates := insertSet t.borrowed_substates addr })
  | none =>
    if addr ∈ t.borrowed_substates then .err .Reentrancy
    else
      match t.substate_store.get_substate addr.encode with
      | some substate =>
        match decodeMut addr substate.value with
        | some v =>
          .ok (v, { t with
            downed_substates := t.downed_substates ++ [substate.phys_id]
            borrowed_substates := insertSet t.borrowed_substates addr })
        | none => .fatal
      | none => .err .NotFound

/-- `Track::return_borrowed_global_mut_value` (panics when the address was
never borrowed through `borrow_global_mut_value`). -/
def return_borrowed_global_mut_value (t : Track) (addr : Address)
    (value : SubstateValue) : TRes Track :=
  if addr ∈ t.borrowed_substates then
    .ok { t with borrowed_substates := t.borrowed_substates.erase addr
                 up_substates := insertKV t.up_substates addr.encode value }
  else .fatal

/-- Index of an element in an `IndexSet` (`get_index_of`). -/
def setIdxOf {α : Type} [DecidableEq α] : List α → α → Option Nat
  | [], _ => none
  | x :: t, a => if x = a then some 0 else (setIdxOf t a).map (· + 1)

/-- `Track::get_substate_parent_id`: `New(index)` when the space is in
`up_virtual_substate_space`, else the store's physical space id (`none`
models the `unwrap` panic when the store lacks the space). -/
def get_substate_parent_id (t : Track) (space_address : Bytes) :
    Option SubstateParentId :=
  match setIdxOf t.up_virtual_substate_space space_address with
  | some index => some (.New index)
  | none => (t.substate_store.get_space space_address).map .Exists

/-- `Track::read_key_value`: a keyed read that falls back to the store and
returns the tombstone (`None` payload) when absent everywhere. -/
def read_key_value (t : Track) (parent_address : Address) (key : Bytes) :
    TRes SubstateValue :=
  let address := parent_address.encode ++ key
  match alookup t.up_substates address with
  | some cur =>
    match cur with
    | .KeyValueStoreEntry e => .ok (.KeyValueStoreEntry e)
    | .NonFungible n => .ok (.NonFungible n)
    | _ => .fatal
  | none =>
    match parent_address with
    | .NonFungibleSet _ =>
      match t.substate_store.get_substate address with
      | some r =>
        match r.value with
        | .NonFungible nf => .ok (.NonFungible nf)
        | _ => .fatal
      | none => .ok (.NonFungible none)
    | .KeyValueStore _ _ =>
      match t.substate_store.get_substate address with
      | some r =>
        match r.value with
        | .KeyValueStoreEntry e => .ok (.KeyValueStoreEntry e)
        | _ => .fatal
      | none => .ok (.KeyValueStoreEntry none)
    | _ => .fatal

/-- `Track::set_key_value`: overwrite an `up` entry in place, else `Down` the
store row, else record a `VirtualDown`; the value always lands in
`up_substates`. -/
def set_key_value (t : Track) (parent_address : Address) (key : Bytes)
    (value : SubstateValue) : TRes Track :=
  let address := parent_address.encode ++ key
  let removed := swapRemove t.up_substates address
  match removed.1 with
  | some _ => .ok { t with up_substates := insertKV removed.2 address value }
  | none =>
    match t.substate_store.get_substate address with
    | some cur =>
      .ok { t with downed_substates := t.downed_substates ++ [cur.phys_id]
                   up_substates := insertKV removed.2 address value }
    | none =>
      match get_substate_parent_id t parent_address.encode with
      | some parent_id =>
        .ok { t with
          down_virtual_substates := t.down_virtual_substates ++ [⟨parent_id, key⟩]
          up_substates := insertKV removed.2 address value }
      | none => .fatal

end Track

/-- The four receipt op kinds. -/
inductive SubstateOperation where
  | Down (id : PhysicalSubstateId)
  | VirtualDown (id : VirtualSubstateId)
  | Up (address : Bytes) (value : Bytes)
  | VirtualUp (space_address : Bytes)
  deriving DecidableEq, Repr

/-- `SubstateOperationsReceipt`. -/
structure SubstateOperationsReceipt where
  substate_operations : List SubstateOperation
  deriving DecidableEq, Repr

/-- `BorrowedSNodes`: whatever is still in `borrowed_substates` at commit. -/
structure BorrowedSNodes where
  borrowed_substates : List Address
  deriving DecidableEq, Repr

/-- `BorrowedSNodes::is_empty`. -/
def BorrowedSNodes.is_empty (b : BorrowedSNodes) : Bool :=
  b.borrowed_substates.isEmpty

/-- `TrackReceipt`. -/
structure TrackReceipt where
  borrowed : BorrowedSNodes
  new_addresses : List Address
  logs : List (Level × String)
  substates : SubstateOperationsReceipt
  deriving DecidableEq, Repr

/-- `Track::to_receipt`: push all `Down`s, then all `VirtualDown`s, then all
`Up`s, then all `VirtualUp`s onto one instruction list. -/
def Track.to_receipt (t : Track) : TrackReceipt :=
  let i1 := t.downed_substates.foldl
    (fun acc s => acc ++ [SubstateOperation.Down s]) []
  let i2 := t.down_virtual_substates.foldl
    (fun acc v => acc ++ [SubstateOperation.VirtualDown v]) i1
  let i3 := t.up_substates.foldl
    (fun acc p => acc ++ [SubstateOperation.Up p.1 p.2.encode]) i2
  let i4 := t.up_virtual_substate_space.foldl
    (fun acc s => acc ++ [SubstateOperation.VirtualUp s]) i3
  { borrowed := ⟨t.borrowed_substates⟩
    new_addresses := t.new_addresses
    logs := t.logs
    substates := ⟨i4⟩ }

/-! ## Supporting lemmas -/

theorem foldl_push_eq {α β : Type} (f : α → β) (l : List α) (init : List β) :
    l.foldl (fun acc x => acc ++ [f x]) init = init ++ l.map f := by
  induction l generalizing init with
  | nil => simp
  | cons a t ih => simp [ih, List.append_assoc]

theorem swapRemove_of_alookup_none {K V : Type} [DecidableEq K] (l : List (K × V)) (k : K)
    (h : alookup l k = none) : swapRemove l k = (none, l) := by
  unfold swapRemove
  rw [(findIdxA_eq_none_iff l k).2 ((alookup_eq_none_iff l k).1 h)]

theorem decodeRead_eq (addr : Address) (v w : SubstateValue)
    (h : Track.decodeRead addr v = some w) : w = v := by
  cases addr <;> cases v <;> simp_all [Track.decodeRead]

theorem decodeLock_eq (addr : Address) (v w : SubstateValue)
    (h : Track.decodeLock addr v = some w) : w = v := by
  cases addr <;> cases v <;> simp_all [Track.decodeLock]

theorem decodeMut_eq (addr : Address) (v w : SubstateValue)
    (h : Track.decodeMut addr v = some w) : w = v := by
  cases addr <;> cases v <;> simp_all [Track.decodeMut]

/-- Applying a sequence of transitions through `MethodAccessRule::main`. -/
def MethodAccessRule.mainList (r : MethodAccessRule)
    (ms : List MethodAccessRuleMethod) : MethodAccessRule :=
  ms.foldl MethodAccessRule.main r

theorem mainList_preserves_DenyAll (ms : List MethodAccessRuleMethod) :
    ∀ r : MethodAccessRule, r.update_auth = .DenyAll →
      (r.mainList ms).update_auth = .DenyAll := by
  induction ms with
  | nil => intro r h; exact h
  | cons m rest ih =>
    intro r h
    have hstep : (r.main m).update_auth = .DenyAll := by
      cases m with
      | Lock => rfl
      | Update rule => exact h
    exact ih (r.main m) hstep

/-! ## Claims -/

/-- C5: for every track, `to_receipt` linearizes the substate operations as
all `Down`s in recorded order, then all `VirtualDown`s in recorded order,
then one `Up(encoded_addr, encoded_value)` per `up_substates` entry in map
order, then one `VirtualUp` per `up_virtual_substate_space` entry in set
order. -/
theorem to_receipt_op_order (t : Track) :
    t.to_receipt.substates.substate_operations =
      t.downed_substates.map SubstateOperation.Down
      ++ t.down_virtual_substates.map SubstateOperation.VirtualDown
      ++ t.up_substates.map (fun p => SubstateOperation.Up p.1 p.2.encode)
      ++ t.up_virtual_substate_space.map SubstateOperation.VirtualUp := by
  unfold Track.to_receipt
  simp only [foldl_push_eq, List.nil_append, List.append_assoc]

/-- C9: `update(new_auth)` sets `auth := convert(new_auth)` leaving
`update_auth` unchanged; `lock()` sets `update_auth := DenyAll` leaving
`auth` unchanged; after `lock()`, `get_update_auth` answers `DenyAll` for
both a subsequent update and a subsequent lock, and `update_auth` stays
`DenyAll` under every further sequence of `main` transitions: the rule is
frozen irreversibly. -/
theorem method_access_rule_lock_freezes (r : MethodAccessRule)
    (new_auth : AccessRule) (m : MethodAccessRuleMethod)
    (ms : List MethodAccessRuleMethod) :
    (r.update new_auth).auth = convert new_auth ∧
    (r.update new_auth).update_auth = r.update_auth ∧
    r.lock.update_auth = .DenyAll ∧
    r.lock.auth = r.auth ∧
    r.lock.get_update_auth m = .DenyAll ∧
    (r.lock.mainList ms).update_auth = .DenyAll := by
  refine ⟨rfl, rfl, rfl, rfl, ?_, ?_⟩
  · cases m <;> rfl
  · exact mainList_preserves_DenyAll ms r.lock rfl

theorem take_lock_of_absent_borrowed (t : Track) (a : Address)
    (hup : alookup t.up_substates a.encode = none)
    (hb : (alookup t.borrowed_substates_2 a).isSome = true) :
    t.take_lock a = .err .Reentrancy := by
  unfold Track.take_lock
  rw [swapRemove_of_alookup_none _ _ hup]
  simp [hb]

theorem take_lock_ok_shape (t : Track) (a : Address) (t1 : Track)
    (hwf : t.WF) (h : t.take_lock a = .ok t1) :
    alookup t1.up_substates a.encode = none ∧
      (alookup t1.borrowed_substates_2 a).isSome = true := by
  unfold Track.take_lock at h
  cases hrem : (swapRemove t.up_substates a.encode).1 with
  | some value =>
    simp only [hrem, TRes.ok.injEq] at h
    rw [← h]
    exact ⟨alookup_swapRemove_self t.up_substates hwf a.encode,
      by simp [alookup_insertKV_self]⟩
  | none =>
    simp only [hrem] at h
    cases hb : (alookup t.borrowed_substates_2 a).isSome with
    | true => simp [hb] at h
    | false =>
      simp only [hb, Bool.false_eq_true, if_false] at h
      cases hstore : t.substate_store.get_substate a.encode with
      | none => simp [hstore] at h
      | some substate =>
        cases hdec : Track.decodeLock a substate.value with
        | none => simp [hstore, hdec] at h
        | some v =>
          simp only [hstore, hdec, TRes.ok.injEq] at h
          rw [← h]
          exact ⟨(swapRemove_fst_none _ _ hrem).2, by simp [alookup_insertKV_self]⟩

/-- C2: whenever `take_lock(a)` succeeds, a second `take_lock(a)` without an
intervening `release_lock(a)` returns the `Reentrancy` error (it does not
succeed, return `NotFound`, or panic). -/
theorem take_lock_then_take_lock_reentrancy (t : Track) (a : Address) (t1 : Track)
    (hwf : t.WF) (h : t.take_lock a = .ok t1) :
    t1.take_lock a = .err .Reentrancy := by
  have hshape := take_lock_ok_shape t a t1 hwf h
  exact take_lock_of_absent_borrowed t1 a hshape.1 hshape.2

/-- A store holding one global component at `(hash 0, index 7)`. -/
def wStore : SubstateStore :=
  { substates := [(Address.encode (.GlobalComponent 7),
      { value := .Component ⟨[]⟩, phys_id := ⟨0, 7⟩ })]
    spaces := []
    epoch := 0 }

/-- A fresh track over `wStore`. -/
def wTrack : Track := Track.new wStore 99

/-- The component's address. -/
def wAddr : Address := .GlobalComponent 7

/-- `wTrack` after a successful `take_lock wAddr` (one `Down`, value moved
into `borrowed_substates_2`). -/
def wTrackLocked : Track :=
  { wTrack with downed_substates := [⟨0, 7⟩]
                borrowed_substates_2 := [(wAddr, .Component ⟨[]⟩)] }

theorem take_lock_then_take_lock_reentrancy_witness :
    wTrack.WF ∧ wTrack.take_lock wAddr = .ok wTrackLocked ∧
      wTrackLocked.take_lock wAddr = .err .Reentrancy :=
  ⟨by decide, by decide,
    take_lock_then_take_lock_reentrancy wTrack wAddr wTrackLocked (by decide) (by decide)⟩

/-- C7: for an address in the `Borrowed` state, `write_value(a, v)` succeeds,
`release_lock(a)` succeeds, and a subsequent `borrow_global_value(a)`
returns exactly `v`, the value most recently written. -/
theorem write_release_read_back (t : Track) (a : Address) (v : SubstateValue)
    (h : (alookup t.borrowed_substates_2 a).isSome = true) :
    ∃ t1 t2, t.write_value a v = .ok t1 ∧ t1.release_lock a = .ok t2 ∧
      t2.borrow_global_value a = .ok (v, t2) := by
  refine ⟨{ t with borrowed_substates_2 := insertKV t.borrowed_substates_2 a v },
          { t with borrowed_substates_2 := removeKV (insertKV t.borrowed_substates_2 a v) a
                   up_substates := insertKV t.up_substates a.encode v }, ?_, ?_, ?_⟩
  · unfold Track.write_value
    rw [if_pos h]
  · simp only [Track.release_lock]
    rw [alookup_insertKV_self]
  · simp only [Track.borrow_global_value]
    rw [alookup_insertKV_self]

theorem write_release_read_back_witness :
    (alookup wTrackLocked.borrowed_substates_2 wAddr).isSome = true ∧
      (∃ t1 t2, wTrackLocked.write_value wAddr (.Component ⟨[5]⟩) = .ok t1 ∧
        t1.release_lock wAddr = .ok t2 ∧
        t2.borrow_global_value wAddr = .ok (.Component ⟨[5]⟩, t2)) :=
  ⟨by decide, write_release_read_back wTrackLocked wAddr (.Component ⟨[5]⟩) (by decide)⟩

/-- C10: `borrow_global_value` never returns `Reentrancy` (there is no
reentrancy check on the read path, even when the address is currently
borrowed): the only error is `NotFound`, returned exactly when the address
is neither in `up_substates` nor in the backing store; and when the address
is not in `up_substates`, any successfully returned value is the store's
(possibly stale) copy. -/
theorem borrow_global_value_no_reentrancy (t : Track) (a : Address) :
    (∀ e, t.borrow_global_value a = .err e → e = .NotFound) ∧
    (t.borrow_global_value a = .err .NotFound ↔
      alookup t.up_substates a.encode = none ∧
        t.substate_store.get_substate a.encode = none) ∧
    (∀ v t2, alookup t.up_substates a.encode = none →
      t.borrow_global_value a = .ok (v, t2) →
      ∃ s, t.substate_store.get_substate a.encode = some s ∧ v = s.value) := by
  cases hup : alookup t.up_substates a.encode with
  | some v0 =>
    refine ⟨?_, ?_, ?_⟩
    · intro e he
      simp [Track.borrow_global_value, hup] at he
    · constructor
      · intro hc
        simp [Track.borrow_global_value, hup] at hc
      · intro hc
        exact absurd hc.1 (by simp)
    · intro v t2 hnone
      exact absurd hnone (by simp)
  | none =>
    cases hstore : t.substate_store.get_substate a.encode with
    | none =>
      refine ⟨?_, ?_, ?_⟩
      · intro e he
        simp [Track.borrow_global_value, hup, hstore] at he
        exact he.symm
      · exact ⟨fun _ => by simp [hup, hstore], fun _ => by
          simp [Track.borrow_global_value, hup, hstore]⟩
      · intro v t2 _ hok
        simp [Track.borrow_global_value, hup, hstore] at hok
    | some s =>
      cases hdec : Track.decodeRead a s.value with
      | none =>
        refine ⟨?_, ?_, ?_⟩
        · intro e he
          simp [Track.borrow_global_value, hup, hstore, hdec] at he
        · constructor
          · intro hc
            simp [Track.borrow_global_value, hup, hstore, hdec] at hc
          · intro hc
            exact absurd hc.2 (by simp)
        · intro v t2 _ hok
          simp [Track.borrow_global_value, hup, hstore, hdec] at hok
      | some w =>
        refine ⟨?_, ?_, ?_⟩
        · intro e he
          simp [Track.borrow_global_value, hup, hstore, hdec] at he
        · constructor
          · intro hc
            simp [Track.borrow_global_value, hup, hstore, hdec] at hc
          · intro hc
            exact absurd hc.2 (by simp)
        · intro v t2 _ hok
          simp only [Track.borrow_global_value, hup, hstore, hdec] at hok
          refine ⟨s, rfl, ?_⟩
          have hv : v = w := by
            cases hok
            rfl
          rw [hv]
          exact decodeRead_eq a s.value w hdec

/-- The empty store. -/
def wStoreEmpty : SubstateStore := { substates := [], spaces := [], epoch := 0 }

/-- A fresh track over the empty store. -/
def wTrackEmpty : Track := Track.new wStoreEmpty 0

theorem borrow_global_value_no_reentrancy_witness :
    TrackError.NotFound = TrackError.NotFound ∧
      (wTrack.borrow_global_value wAddr = .err .NotFound ↔
        alookup wTrack.up_substates wAddr.encode = none ∧
          wTrack.substate_store.get_substate wAddr.encode = none) :=
  ⟨(borrow_global_value_no_reentrancy wTrackEmpty wAddr).1 .NotFound (by decide),
   (borrow_global_value_no_reentrancy wTrack wAddr).2.1⟩

/-- C8: `set_key_value(parent, key, value)` on the full address
`encode(parent) ++ key`: if the address is already in `up_substates` it is
overwritten there with no `Down` or `VirtualDown` recorded (all other keys
unaffected); else if the store holds it, exactly one `Down` with the store
entry's physical id is appended; else exactly one
`VirtualDown(VirtualSubstateId(parent_id, key))` is appended, where
`parent_id` is `New(index)` when the encoded parent space is in
`up_virtual_substate_space` and `Exists(store space id)` otherwise; in every
case the value lands in `up_substates` under the full address. -/
theorem set_key_value_spec (t : Track) (parent : Address) (key : Bytes)
    (v : SubstateValue) (address : Bytes) (hwf : t.WF)
    (haddr : address = parent.encode ++ key) :
    ((alookup t.up_substates address).isSome = true →
      t.set_key_value parent key v =
        .ok { t with up_substates :=
                insertKV (swapRemove t.up_substates address).2 address v } ∧
      alookup (insertKV (swapRemove t.up_substates address).2 address v) address = some v ∧
      ∀ k2, k2 ≠ address →
        alookup (insertKV (swapRemove t.up_substates address).2 address v) k2 =
          alookup t.up_substates k2) ∧
    (alookup t.up_substates address = none →
      ∀ s, t.substate_store.get_substate address = some s →
        t.set_key_value parent key v =
          .ok { t with downed_substates := t.downed_substates ++ [s.phys_id]
                       up_substates := insertKV t.up_substates address v } ∧
        alookup (insertKV t.up_substates address v) address = some v) ∧
    (alookup t.up_substates address = none →
      t.substate_store.get_substate address = none →
      ∀ pid, t.get_substate_parent_id parent.encode = some pid →
        t.set_key_value parent key v =
          .ok { t with
            down_virtual_substates := t.down_virtual_substates ++ [⟨pid, key⟩]
            up_substates := insertKV t.up_substates address v } ∧
        alookup (insertKV t.up_substates address v) address = some v) ∧
    (∀ i, Track.setIdxOf t.up_virtual_substate_space parent.encode = some i →
      t.get_substate_parent_id parent.encode = some (.New i)) ∧
    (Track.setIdxOf t.up_virtual_substate_space parent.encode = none →
      t.get_substate_parent_id parent.encode =
        (t.substate_store.get_space parent.encode).map SubstateParentId.Exists) := by
  subst haddr
  refine ⟨?_, ?_, ?_, ?_, ?_⟩
  · intro hup
    cases hsw : (swapRemove t.up_substates (parent.encode ++ key)).1 with
    | none =>
      rw [(swapRemove_fst_none _ _ hsw).2] at hup
      simp at hup
    | some w =>
      refine ⟨?_, alookup_insertKV_self _ _ _, ?_⟩
      · simp only [Track.set_key_value, hsw]
      · intro k2 hk2
        rw [alookup_insertKV_other _ _ _ _ hk2]
        exact alookup_swapRemove_other t.up_substates hwf _ _ hk2
  · intro hup s hstore
    have hsw := swapRemove_of_alookup_none _ _ hup
    refine ⟨?_, alookup_insertKV_self _ _ _⟩
    simp only [Track.set_key_value, hsw, hstore]
  · intro hup hstore pid hpid
    have hsw := swapRemove_of_alookup_none _ _ hup
    refine ⟨?_, alookup_insertKV_self _ _ _⟩
    simp only [Track.set_key_value, hsw, hstore, hpid]
  · intro i hi
    simp only [Track.get_substate_parent_id, hi]
  · intro hi
    simp only [Track.get_substate_parent_id, hi]

/-- A store that knows the physical space id of kv-store `(1, 2)` but holds
no substates. -/
def wStoreKV : SubstateStore :=
  { substates := []
    spaces := [(Address.encode (.KeyValueStore 1 2), ⟨0, 3⟩)]
    epoch := 0 }

/-- A fresh track over `wStoreKV`. -/
def wTrackKV : Track := Track.new wStoreKV 5

theorem set_key_value_spec_witness :
    wTrackKV.set_key_value (.KeyValueStore 1 2) [9] (.KeyValueStoreEntry (some [7])) =
      .ok { wTrackKV with
        down_virtual_substates :=
          wTrackKV.down_virtual_substates ++ [⟨.Exists ⟨0, 3⟩, [9]⟩]
        up_substates :=
          insertKV wTrackKV.up_substates (Address.encode (.KeyValueStore 1 2) ++ [9])
            (.KeyValueStoreEntry (some [7])) } ∧
    alookup
      (insertKV wTrackKV.up_substates (Address.encode (.KeyValueStore 1 2) ++ [9])
        (.KeyValueStoreEntry (some [7])))
      (Address.encode (.KeyValueStore 1 2) ++ [9]) =
        some (.KeyValueStoreEntry (some [7])) :=
  (set_key_value_spec wTrackKV (.KeyValueStore 1 2) [9] (.KeyValueStoreEntry (some [7]))
    (Address.encode (.KeyValueStore 1 2) ++ [9]) (by decide) (by decide)).2.2.1
    (by decide) (by decide) (.Exists ⟨0, 3⟩) (by decide)

/-- C1: evaluation at the failing input.  `take_lock` and
`borrow_global_mut_value` guard reentrancy with two *different* sets
(`borrowed_substates_2` vs `borrowed_substates`), so after `take_lock(a)`
succeeds (recording one `Down`), `borrow_global_mut_value(a)` does *not*
fail with `Reentrancy`: it faults the address from the store a second time,
records a second `Down`, and hands out a second copy — contradicting the
claim (and §5 of the spec, which makes the `Borrowed` state the sole safety
invariant for both paths). -/
theorem cross_path_reentrancy_not_detected :
    wTrack.take_lock wAddr = .ok wTrackLocked ∧
    wTrackLocked.borrow_global_mut_value wAddr =
      .ok (.Component ⟨[]⟩,
        { wTrackLocked with
          downed_substates := [⟨0, 7⟩, ⟨0, 7⟩]
          borrowed_substates := [wAddr] }) ∧
    wTrackLocked.borrow_global_mut_value wAddr ≠ .err .Reentrancy ∧
    [PhysicalSubstateId.mk 0 7, PhysicalSubstateId.mk 0 7].length = 2 := by
  refine ⟨by decide, by decide, by decide, rfl⟩

/-- `check_amount` as a propositional conditional. -/
theorem check_amount_eq (rm : ResourceManager) (amount : Decimal) :
    rm.check_amount amount =
      if amount < 0 ∨
          Int.tmod amount ((10 : Int) ^ (18 - rm.resource_type.divisibility)) ≠ 0
      then .error (.InvalidAmount amount rm.resource_type.divisibility)
      else .ok () := by
  unfold ResourceManager.check_amount
  by_cases h1 : amount < 0
  · simp [Decimal.is_negative, h1]
  · by_cases h2 : Int.tmod amount ((10 : Int) ^ (18 - rm.resource_type.divisibility)) = 0
    · simp [Decimal.is_negative, h1, h2]
    · simp [Decimal.is_negative, h1, h2]

/-- C6: `mint_fungible(amount)` fails exactly when the resource is not
fungible (`ResourceTypeDoesNotMatch`), the amount is negative or not a
multiple of `10^(18-divisibility)` raw subunits (`InvalidAmount`), or the
amount exceeds the `100_000_000_000` per-call cap
(`MaxMintAmountExceeded`); on success `total_supply` increases by exactly
`amount`, and on every failure the manager is unchanged.  (Divisibilities
above 18 are outside the model: there the source's `18 - divisibility`
underflows and panics.) -/
theorem mint_fungible_spec (rm : ResourceManager) (amount : Decimal) (sa : Nat)
    (hdiv : rm.resource_type.divisibility ≤ 18) :
    (rm.resource_type = .NonFungible →
      rm.mint_fungible amount sa = (.error .ResourceTypeDoesNotMatch, rm)) ∧
    (∀ div, rm.resource_type = .Fungible div →
      ((amount < 0 ∨ Int.tmod amount ((10 : Int) ^ (18 - div)) ≠ 0) →
        rm.mint_fungible amount sa = (.error (.InvalidAmount amount div), rm)) ∧
      (¬ amount < 0 → Int.tmod amount ((10 : Int) ^ (18 - div)) = 0 →
        amount > ResourceManager.mintCap →
        rm.mint_fungible amount sa = (.error .MaxMintAmountExceeded, rm)) ∧
      (¬ amount < 0 → Int.tmod amount ((10 : Int) ^ (18 - div)) = 0 →
        ¬ amount > ResourceManager.mintCap →
        rm.mint_fungible amount sa =
          (.ok (.Fungible sa div amount),
           { rm with total_supply := rm.total_supply + amount }))) := by
  constructor
  · intro hnf
    simp [ResourceManager.mint_fungible, hnf]
  · intro div hf
    have hdv : rm.resource_type.divisibility = div := by
      rw [hf]; rfl
    refine ⟨?_, ?_, ?_⟩
    · intro hbad
      simp only [ResourceManager.mint_fungible, hf, check_amount_eq,
        ResourceType.divisibility]
      rw [if_pos hbad]
    · intro hneg hmod hcap
      simp only [ResourceManager.mint_fungible, hf, check_amount_eq,
        ResourceType.divisibility]
      rw [if_neg (by push_neg; exact ⟨not_lt.1 hneg, hmod⟩)]
      simp only [if_pos hcap]
    · intro hneg hmod hcap
      simp only [ResourceManager.mint_fungible, hf, check_amount_eq,
        ResourceType.divisibility]
      rw [if_neg (by push_neg; exact ⟨not_lt.1 hneg, hmod⟩)]
      simp only [if_neg hcap]

/-- A small fungible resource manager with divisibility 0. -/
def wRM : ResourceManager :=
  { resource_type := .Fungible 0
    metadata := []
    method_table := []
    vault_method_table := []
    authorization := []
    total_supply := 0 }

theorem mint_fungible_spec_witness :
    wRM.mint_fungible (3 * decimalOne) 1 =
      (.ok (.Fungible 1 0 (3 * decimalOne)),
       { wRM with total_supply := wRM.total_supply + 3 * decimalOne }) :=
  ((mint_fungible_spec wRM (3 * decimalOne) 1 (by decide)).2 0 (by decide)).2.2
    (by decide) (by decide) (by decide)

/-- A decoder accepting every blob and finding no embedded container ids. -/
def wDecoder : SborDecoder := fun b =>
  some { raw := b, bucket_ids := [], proof_ids := [], kv_store_ids := [], vault_ids := [] }

/-- A small non-fungible resource manager with zero supply. -/
def wRMNF : ResourceManager :=
  { resource_type := .NonFungible
    metadata := []
    method_table := []
    vault_method_table := []
    authorization := []
    total_supply := 0 }

/-- A system in which non-fungible `(resource 1, id 0)` already exists. -/
def wSys : NFSystem := ⟨[(⟨1, 0⟩, some ⟨[], []⟩)]⟩

/-- The empty non-fungible system. -/
def wSysEmpty : NFSystem := ⟨[]⟩

/-- C3 fails on the code: `mint_non_fungibles` increments `total_supply`
*before* the per-entry loop, so a mint that fails with
`NonFungibleAlreadyExists` leaves the manager's `total_supply` increased by
`|entries|` — the supply is *not* unchanged on failure. -/
theorem mint_non_fungibles_partial_application :
    (wRMNF.mint_non_fungibles [(0, ([], []))] 1 wSys wDecoder).1 =
      .error (.NonFungibleAlreadyExists ⟨1, 0⟩) ∧
    (wRMNF.mint_non_fungibles [(0, ([], []))] 1 wSys wDecoder).2.1.total_supply =
      decimalOne ∧
    wRMNF.total_supply = 0 ∧ decimalOne ≠ (0 : Int) :=
  ⟨rfl, rfl, rfl, by decide⟩

/-- C3 (amended): once `mint_non_fungibles` passes its resource-type and cap
checks, `total_supply` has been increased by exactly `|entries|` units —
both when the per-entry loop succeeds *and* when it fails with
`NonFungibleAlreadyExists` or `InvalidNonFungibleData` (so no-partial-
application holds only at the transaction boundary, where a failed track is
discarded wholesale; failures of the early checks leave the supply
unchanged, as `ResourceTypeDoesNotMatch` there returns before the
increment). -/
theorem mint_non_fungibles_supply_increment (rm : ResourceManager)
    (entries : List (Nat × (Bytes × Bytes))) (sa : Nat) (sys : NFSystem)
    (decoder : SborDecoder) (hnf : rm.resource_type = .NonFungible)
    (hlen : (entries.length : Int) ≤ 100000000000) :
    (rm.mint_non_fungibles entries sa sys decoder).2.1.total_supply =
      rm.total_supply + (entries.length : Int) * decimalOne := by
  · have hca : rm.check_amount ((entries.length : Int) * decimalOne) = .ok () := by
      rw [check_amount_eq]
      rw [if_neg ?hc]
      case hc =>
        push_neg
        constructor
        · exact mul_nonneg (Int.natCast_nonneg _) (by norm_num [decimalOne])
        · rw [hnf]
          show Int.tmod _ ((10 : Int) ^ (18 - ResourceType.NonFungible.divisibility)) = 0
          simp only [ResourceType.divisibility, Nat.sub_zero]
          exact Int.mul_tmod_left _ _
    have hcap : ¬ ((entries.length : Int) * decimalOne > ResourceManager.mintCap) := by
      rw [not_lt, ResourceManager.mintCap]
      exact mul_le_mul_of_nonneg_right hlen (by norm_num [decimalOne])
    unfold ResourceManager.mint_non_fungibles
    simp only [hnf, hca, if_neg hcap]
    cases hloop : ResourceManager.mintNFLoop decoder sa entries sys [] with
    | mk res sys2 =>
      cases res with
      | error e => rfl
      | ok ids => rfl

theorem mint_non_fungibles_supply_increment_witness :
    (wRMNF.mint_non_fungibles [(0, ([], []))] 1 wSysEmpty wDecoder).2.1.total_supply =
      wRMNF.total_supply +
        (([(0, ([], []))] : List (Nat × (Bytes × Bytes))).length : Int) * decimalOne :=
  mint_non_fungibles_supply_increment wRMNF [(0, ([], []))] 1 wSysEmpty wDecoder
    (by decide) (by decide)

/-! ### C4: reachable-state supply invariant -/

/-- One dispatchable mutation of a resource manager (the operations of
`ResourceManager::main` that touch manager state). -/
inductive RMOp where
  | mintFungible (amount : Decimal) (self_address : Nat)
  | mintNonFungibles (entries : List (Nat × (Bytes × Bytes))) (self_address : Nat)
  | burn (amount : Decimal)
  | updateMetadata (m : List (String × String))
  | updateAuth (key : ResourceMethodAuthKey) (rule : AccessRule)
  | lockAuth (key : ResourceMethodAuthKey)

/-- Execute one operation against the manager (keeping the post-call
`&mut self` state whether or not the call returned an error). -/
def execOp (decoder : SborDecoder) (rm : ResourceManager) (sys : NFSystem) :
    RMOp → ResourceManager × NFSystem
  | .mintFungible amount sa => ((rm.mint_fungible amount sa).2, sys)
  | .mintNonFungibles entries sa =>
    ((rm.mint_non_fungibles entries sa sys decoder).2.1,
     (rm.mint_non_fungibles entries sa sys decoder).2.2)
  | .burn amount => (rm.burn amount, sys)
  | .updateMetadata m => (rm.update_metadata m, sys)
  | .updateAuth key rule => ((rm.update_auth key rule).getD rm, sys)
  | .lockAuth key => ((rm.lock_auth key).getD rm, sys)

/-- Execute a sequence of operations. -/
def execOps (decoder : SborDecoder) (rm : ResourceManager) (sys : NFSystem) :
    List RMOp → ResourceManager × NFSystem
  | [] => (rm, sys)
  | op :: rest =>
    execOps decoder (execOp decoder rm sys op).1 (execOp decoder rm sys op).2 rest

/-- Every `burn` in the sequence burns at most the supply current at its
moment of execution. -/
def burnsBounded (decoder : SborDecoder) :
    ResourceManager → NFSystem → List RMOp → Prop
  | _, _, [] => True
  | rm, sys, op :: rest =>
    (match op with
     | .burn a => a ≤ rm.total_supply
     | _ => True) ∧
    burnsBounded decoder (execOp decoder rm sys op).1 (execOp decoder rm sys op).2 rest

/-- C4 fails on the code: `burn` performs `total_supply -= amount` with no
negativity check, so one `burn` of one unit from a freshly created manager
(supply 0) drives `total_supply` to `-10^18 < 0`. -/
theorem total_supply_can_go_negative :
    (ResourceManager.new .NonFungible [] []).total_supply = 0 ∧
    (execOps wDecoder (ResourceManager.new .NonFungible [] []) wSysEmpty
        [.burn decimalOne]).1.total_supply < 0 :=
  ⟨rfl, by decide⟩

theorem mint_fungible_supply_nonneg (rm : ResourceManager) (amount : Decimal)
    (sa : Nat) (h : 0 ≤ rm.total_supply) :
    0 ≤ ((rm.mint_fungible amount sa).2).total_supply := by
  unfold ResourceManager.mint_fungible
  cases hrt : rm.resource_type with
  | NonFungible => simpa using h
  | Fungible div =>
    rw [check_amount_eq]
    by_cases hbad : amount < 0 ∨
        Int.tmod amount ((10 : Int) ^ (18 - rm.resource_type.divisibility)) ≠ 0
    · rw [if_pos hbad]
      simpa using h
    · rw [if_neg hbad]
      push_neg at hbad
      by_cases hcap : amount > ResourceManager.mintCap
      · simp only [if_pos hcap]
        simpa using h
      · simp only [if_neg hcap]
        simpa using add_nonneg h hbad.1

theorem mint_non_fungibles_supply_nonneg (rm : ResourceManager)
    (entries : List (Nat × (Bytes × Bytes))) (sa : Nat) (sys : NFSystem)
    (decoder : SborDecoder) (h : 0 ≤ rm.total_supply) :
    0 ≤ ((rm.mint_non_fungibles entries sa sys decoder).2.1).total_supply := by
  unfold ResourceManager.mint_non_fungibles
  cases hrt : rm.resource_type with
  | Fungible div => simpa using h
  | NonFungible =>
    dsimp only
    cases hca : rm.check_amount ((entries.length : Int) * decimalOne) with
    | error e => simpa using h
    | ok u =>
      by_cases hcap : (entries.length : Int) * decimalOne > ResourceManager.mintCap
      · simp only [if_pos hcap]
        simpa using h
      · simp only [if_neg hcap]
        have hamt : 0 ≤ ((entries.length : Int) * decimalOne) :=
          mul_nonneg (Int.natCast_nonneg _) (by norm_num [decimalOne])
        cases hloop : ResourceManager.mintNFLoop decoder sa entries sys [] with
        | mk res sys2 =>
          cases res with
          | error e => simpa using add_nonneg h hamt
          | ok ids => simpa using add_nonneg h hamt

theorem execOp_supply_nonneg (decoder : SborDecoder) (rm : ResourceManager)
    (sys : NFSystem) (op : RMOp) (h : 0 ≤ rm.total_supply)
    (hb : match op with | .burn a => a ≤ rm.total_supply | _ => True) :
    0 ≤ (execOp decoder rm sys op).1.total_supply := by
  cases op with
  | mintFungible amount sa => exact mint_fungible_supply_nonneg rm amount sa h
  | mintNonFungibles entries sa =>
    exact mint_non_fungibles_supply_nonneg rm entries sa sys decoder h
  | burn amount => exact Int.sub_nonneg.2 hb
  | updateMetadata m => exact h
  | updateAuth key rule =>
    simp only [execOp, ResourceManager.update_auth]
    cases halk : alookup rm.authorization key with
    | none => simpa using h
    | some entry => simpa using h
  | lockAuth key =>
    simp only [execOp, ResourceManager.lock_auth]
    cases halk : alookup rm.authorization key with
    | none => simpa using h
    | some entry => simpa using h

/-- C4 (amended): `total_supply ≥ 0` holds in every state reachable from
`ResourceManager::new` *provided* every `burn(amount)` in the sequence
satisfies `amount ≤ total_supply` at its moment of execution (the
discipline the callers owe `burn`, which itself has no negativity check;
without that proviso a single over-burn goes negative). -/
theorem total_supply_nonneg_of_bounded_burns (decoder : SborDecoder)
    (ops : List RMOp) :
    ∀ (rm : ResourceManager) (sys : NFSystem), 0 ≤ rm.total_supply →
      burnsBounded decoder rm sys ops →
      0 ≤ (execOps decoder rm sys ops).1.total_supply := by
  induction ops with
  | nil => intro rm sys h _; exact h
  | cons op rest ih =>
    intro rm sys h hb
    exact ih _ _ (execOp_supply_nonneg decoder rm sys op h hb.1) hb.2

theorem total_supply_nonneg_of_bounded_burns_witness :
    0 ≤ (execOps wDecoder (ResourceManager.new .NonFungible [] []) wSysEmpty
      [.mintNonFungibles [(0, ([], []))] 1, .burn decimalOne]).1.total_supply :=
  total_supply_nonneg_of_bounded_burns wDecoder
    [.mintNonFungibles [(0, ([], []))] 1, .burn decimalOne]
    (ResourceManager.new .NonFungible [] []) wSysEmpty (by decide)
    (by constructor
        · trivial
        · constructor
          · decide
          · trivial)

end RadixTrack
